import Mathlib

/-!
Verification of the PowerPC SIMD portability layer (`ppc_simd.h`).

The layer is a set of small inline wrappers over AltiVec / VSX compiler
built-ins: unaligned vector load/store, big-endian load/store, byte
permutation and reversal, an emulated two-lane 64-bit add, compile-time
byte shifts and rotates, vector comparison, and Power8 AES/SHA round
dispatch.  We model a 128-bit vector by its sixteen bytes in big-endian
(element-0-first) order, memory by a total function from byte addresses
to byte values, and each built-in by its architectural semantics.
-/

/-- A 128-bit vector value, as its 16 bytes in element order
(element 0 first, which is the lowest address on a big-endian machine). -/
abbrev Vec := Fin 16 → Nat

/-- Flat byte-addressed memory. -/
abbrev Mem := Nat → Nat

/-- Byte `k` of a vector, as a total function of a `Nat` index
(out-of-range indices read as 0; all uses below stay in range). -/
def byte (v : Vec) (k : Nat) : Nat := if h : k < 16 then v ⟨k, h⟩ else 0

/-- The all-zero vector, `{0}` in the source. -/
def zeroV : Vec := fun _ => 0

/-- A sample nowhere-zero vector used for concrete evaluations. -/
def onesV : Vec := fun _ => 1

/-- Semantics of the `vec_perm` built-in: output byte `i` selects byte
`mask i mod 32` of the 32-byte concatenation of `a` and `b`. -/
def vec_perm (a b mask : Vec) : Vec :=
  fun i =>
    if byte mask i.val % 32 < 16 then byte a (byte mask i.val % 32)
    else byte b (byte mask i.val % 32 - 16)

/-- The 16-byte window of `x ++ y` starting at byte `c` (for `c ≤ 16`):
the result computed by the `vsldoi` instruction with shift `c`. -/
def sldWin (x y : Vec) (c : Nat) : Vec :=
  fun i => if c + i.val < 16 then byte x (c + i.val) else byte y (c + i.val - 16)

/-- Semantics of the `vec_sld` built-in on a big-endian host.  The shift
amount is a 4-bit immediate: an argument outside `0..15` is rejected by
the compiler, which we model as `none`. -/
def vec_sld (a b : Vec) (c : Nat) : Option Vec :=
  if c < 16 then some (sldWin a b c) else none

/-- Semantics of the `vec_sld` built-in on a little-endian host: it
behaves as the big-endian `vec_sld` with the operands swapped and the
shift amount replaced by `16 - c`.  The immediate must still be in
`0..15`. -/
def vec_sld_le (a b : Vec) (c : Nat) : Option Vec :=
  if c < 16 then some (sldWin b a (16 - c)) else none

/-- `VectorShiftLeftOctet<C>` from `ppc_simd.h`, with the host byte
order as the parameter `be`: returns zero when `C >= 16`, the input when
`C == 0`, else `vec_sld(vec, zero, C)` on big-endian and
`vec_sld(zero, vec, 16-C)` on little-endian. -/
def VectorShiftLeftOctet (be : Bool) (C : Nat) (v : Vec) : Option Vec :=
  if 16 ≤ C then some zeroV
  else if C = 0 then some v
  else if be then vec_sld v zeroV C else vec_sld_le zeroV v (16 - C)

/-- `VectorShiftRightOctet<C>` from `ppc_simd.h`: returns zero when
`C >= 16`, the input when `C == 0`, else `vec_sld(zero, vec, 16-C)` on
big-endian and `vec_sld(vec, zero, C)` on little-endian. -/
def VectorShiftRightOctet (be : Bool) (C : Nat) (v : Vec) : Option Vec :=
  if 16 ≤ C then some zeroV
  else if C = 0 then some v
  else if be then vec_sld zeroV v (16 - C) else vec_sld_le v zeroV C

/-- `VectorRotateLeftOctet<C>` from `ppc_simd.h`: with `R = C & 0xf`,
`vec_sld(vec, vec, R)` on big-endian and `vec_sld(vec, vec, 16-R)` on
little-endian. -/
def VectorRotateLeftOctet (be : Bool) (C : Nat) (v : Vec) : Option Vec :=
  if be then vec_sld v v (C % 16) else vec_sld_le v v (16 - C % 16)

/-- `VectorRotateRightOctet<C>` from `ppc_simd.h`: with `R = C & 0xf`,
`vec_sld(vec, vec, 16-R)` on big-endian and `vec_sld(vec, vec, R)` on
little-endian. -/
def VectorRotateRightOctet (be : Bool) (C : Nat) (v : Vec) : Option Vec :=
  if be then vec_sld v v (16 - C % 16) else vec_sld_le v v (C % 16)

/-! ### Loads -/

/-- The 16 bytes of memory starting at `addr`, as a vector.  This is the
specified result of an unaligned 16-byte load, and also the semantics of
the POWER7 `vec_xl` / `vec_vsx_ld` built-ins, which ignore alignment. -/
def loadWindow (mem : Mem) (addr : Nat) : Vec := fun i => mem (addr + i.val)

/-- Semantics of the `vec_ld` built-in: the effective address `src + off`
is truncated to its 16-byte-aligned block, and that block is loaded. -/
def vec_ld (mem : Mem) (off src : Nat) : Vec :=
  loadWindow mem (src + off - (src + off) % 16)

/-- Semantics of the `vec_lvsl` built-in: with `sh = (src + off) mod 16`,
the permutation `{sh, sh+1, ..., sh+15}`. -/
def vec_lvsl (off src : Nat) : Vec := fun i => (src + off) % 16 + i.val

/-- Semantics of the `vec_lvsr` built-in: with `sh = (src + off) mod 16`,
the permutation `{16-sh, ..., 31-sh}`. -/
def vec_lvsr (off src : Nat) : Vec := fun i => 16 - (src + off) % 16 + i.val

/-- The POWER7 `vec_vsx_ld` / `vec_xl` built-in: a true unaligned load
from effective address `src + off`. -/
def vec_vsx_ld (mem : Mem) (off src : Nat) : Vec := loadWindow mem (src + off)

/-- `VectorLoad_ALTIVEC(src)` (the zero-offset overload): an aligned
`vec_ld` when `src` is 16-byte aligned, else two aligned loads assembled
with a `vec_lvsl` permutation. -/
def VectorLoad_ALTIVEC₀ (mem : Mem) (src : Nat) : Vec :=
  if src % 16 = 0 then vec_ld mem 0 src
  else vec_perm (vec_ld mem 0 src) (vec_ld mem 15 src) (vec_lvsl 0 src)

/-- `VectorLoad_ALTIVEC(off, src)`: the alignment test is on the pointer
`src` alone, the low block is `vec_ld(off, src)`, the high block is
`vec_ld(15, src)` (the offset is not applied to the high block), and the
permutation is `vec_lvsl(off, src)`. -/
def VectorLoad_ALTIVEC (mem : Mem) (off src : Nat) : Vec :=
  if src % 16 = 0 then vec_ld mem off src
  else vec_perm (vec_ld mem off src) (vec_ld mem 15 src) (vec_lvsl off src)

/-- `VectorLoad(off, src)`: the POWER7 unaligned-capable load when
`_ARCH_PWR7` holds (parameter `pwr7`), else `VectorLoad_ALTIVEC`. -/
def VectorLoad (pwr7 : Bool) (mem : Mem) (off src : Nat) : Vec :=
  if pwr7 then vec_vsx_ld mem off src else VectorLoad_ALTIVEC mem off src

/-! ### Stores -/

/-- Writing the 16 bytes of `data` at `[addr, addr+16)`: the specified
effect of an unaligned 16-byte store, and the semantics of the POWER7
`vec_xst` / `vec_vsx_st` built-ins. -/
def storeWindow (data : Vec) (addr : Nat) (mem : Mem) : Mem :=
  fun a => if addr ≤ a ∧ a < addr + 16 then byte data (a - addr) else mem a

/-- Semantics of the `vec_st` built-in: the effective address
`dest + off` is truncated to its aligned block, which receives the
16 bytes. -/
def vec_st (data : Vec) (off dest : Nat) (mem : Mem) : Mem :=
  storeWindow data (dest + off - (dest + off) % 16) mem

/-- The POWER7 `vec_vsx_st` / `vec_xst` built-in: a true unaligned store
at effective address `dest + off`. -/
def vec_vsx_st (data : Vec) (off dest : Nat) (mem : Mem) : Mem :=
  storeWindow data (dest + off) mem

/-- Semantics of `vec_ste` on `unsigned char*`: stores the vector byte
whose index is `EA mod 16` at the effective address `EA = dest + off`. -/
def vec_ste_u8 (v : Vec) (off dest : Nat) (mem : Mem) : Mem :=
  fun a => if a = dest + off then byte v ((dest + off) % 16) else mem a

/-- Semantics of `vec_ste` on `unsigned short*`: the effective address
is truncated to a halfword boundary and the vector halfword with index
`(EA mod 16) / 2` is stored there (two bytes, element order). -/
def vec_ste_u16 (v : Vec) (off dest : Nat) (mem : Mem) : Mem :=
  fun a =>
    if a = dest + off - (dest + off) % 2 then
      byte v ((dest + off - (dest + off) % 2) % 16)
    else if a = dest + off - (dest + off) % 2 + 1 then
      byte v ((dest + off - (dest + off) % 2) % 16 + 1)
    else mem a

/-- Semantics of `vec_ste` on `unsigned int*`: the effective address is
truncated to a word boundary and the vector word with index
`(EA mod 16) / 4` is stored there (four bytes, element order). -/
def vec_ste_u32 (v : Vec) (off dest : Nat) (mem : Mem) : Mem :=
  fun a =>
    if a = dest + off - (dest + off) % 4 then
      byte v ((dest + off - (dest + off) % 4) % 16)
    else if a = dest + off - (dest + off) % 4 + 1 then
      byte v ((dest + off - (dest + off) % 4) % 16 + 1)
    else if a = dest + off - (dest + off) % 4 + 2 then
      byte v ((dest + off - (dest + off) % 4) % 16 + 2)
    else if a = dest + off - (dest + off) % 4 + 3 then
      byte v ((dest + off - (dest + off) % 4) % 16 + 3)
    else mem a

/-- `VectorStore_ALTIVEC(data, off, dest)`: an aligned `vec_st` when the
pointer `dest` is 16-byte aligned, else the vector is permuted by
`vec_lvsr(off, dest)` and written through eight `vec_ste` sub-stores at
fixed offsets 0,1,3,4,8,12,14,15 from `dest` (the offset `off` is not
applied to the sub-stores). -/
def VectorStore_ALTIVEC (data : Vec) (off dest : Nat) (mem : Mem) : Mem :=
  if dest % 16 = 0 then vec_st data off dest mem
  else
    vec_ste_u8 (vec_perm data data (vec_lvsr off dest)) 15 dest
      (vec_ste_u16 (vec_perm data data (vec_lvsr off dest)) 14 dest
        (vec_ste_u32 (vec_perm data data (vec_lvsr off dest)) 12 dest
          (vec_ste_u32 (vec_perm data data (vec_lvsr off dest)) 8 dest
            (vec_ste_u32 (vec_perm data data (vec_lvsr off dest)) 4 dest
              (vec_ste_u32 (vec_perm data data (vec_lvsr off dest)) 3 dest
                (vec_ste_u16 (vec_perm data data (vec_lvsr off dest)) 1 dest
                  (vec_ste_u8 (vec_perm data data (vec_lvsr off dest)) 0 dest mem)))))))

/-- `VectorStore_ALTIVEC(data, dest)` (the zero-offset overload). -/
def VectorStore_ALTIVEC₀ (data : Vec) (dest : Nat) (mem : Mem) : Mem :=
  if dest % 16 = 0 then vec_st data 0 dest mem
  else
    vec_ste_u8 (vec_perm data data (vec_lvsr 0 dest)) 15 dest
      (vec_ste_u16 (vec_perm data data (vec_lvsr 0 dest)) 14 dest
        (vec_ste_u32 (vec_perm data data (vec_lvsr 0 dest)) 12 dest
          (vec_ste_u32 (vec_perm data data (vec_lvsr 0 dest)) 8 dest
            (vec_ste_u32 (vec_perm data data (vec_lvsr 0 dest)) 4 dest
              (vec_ste_u32 (vec_perm data data (vec_lvsr 0 dest)) 3 dest
                (vec_ste_u16 (vec_perm data data (vec_lvsr 0 dest)) 1 dest
                  (vec_ste_u8 (vec_perm data data (vec_lvsr 0 dest)) 0 dest mem)))))))

/-- `VectorStore(data, off, dest)`: the POWER7 unaligned-capable store
when `_ARCH_PWR7` holds (parameter `pwr7`), else `VectorStore_ALTIVEC`. -/
def VectorStore (pwr7 : Bool) (data : Vec) (off dest : Nat) (mem : Mem) : Mem :=
  if pwr7 then vec_vsx_st data off dest mem else VectorStore_ALTIVEC data off dest mem

/-! ### Byte reversal and big-endian load/store -/

/-- The reversal mask `{15,14,...,0}` from `Reverse`. -/
def revMask : Vec := fun i => 15 - i.val

/-- `Reverse(src)`: whole-vector byte reversal, as a self-permute with
`revMask`. -/
def Reverse (v : Vec) : Vec := vec_perm v v revMask

/-- `VectorLoadBE(src)` (GNU built-ins), with `_ARCH_PWR7` and the host
byte order `CRYPTOPP_BIG_ENDIAN` as parameters: a `vec_vsx_ld` (PWR7)
or zero-offset `VectorLoad_ALTIVEC` (pre-PWR7), followed by a
whole-vector `Reverse` on a little-endian host. -/
def VectorLoadBE (pwr7 be : Bool) (mem : Mem) (src : Nat) : Vec :=
  if pwr7 then
    if be then vec_vsx_ld mem 0 src else Reverse (vec_vsx_ld mem 0 src)
  else
    if be then VectorLoad_ALTIVEC₀ mem src else Reverse (VectorLoad_ALTIVEC₀ mem src)

/-- `VectorStoreBE(src, dest)` (GNU built-ins), with `_ARCH_PWR7` and
the host byte order as parameters: a `vec_vsx_st` (PWR7) or a
`VectorStore_ALTIVEC` at offset 0 (pre-PWR7), of `Reverse(src)` on a
little-endian host. -/
def VectorStoreBE (pwr7 be : Bool) (v : Vec) (dest : Nat) (mem : Mem) : Mem :=
  if pwr7 then
    if be then vec_vsx_st v 0 dest mem else vec_vsx_st (Reverse v) 0 dest mem
  else
    if be then VectorStore_ALTIVEC v 0 dest mem
    else VectorStore_ALTIVEC (Reverse v) 0 dest mem

/-! ### 32-bit-lane arithmetic and the emulated 64-bit add -/

/-- The `uint32x4` view of a vector: word lane `i` is bytes
`4i..4i+3` in big-endian significance order. -/
def w32 (v : Vec) (i : Nat) : Nat :=
  byte v (4 * i) * 2 ^ 24 + byte v (4 * i + 1) * 2 ^ 16 +
    byte v (4 * i + 2) * 2 ^ 8 + byte v (4 * i + 3)

/-- Rebuild a vector from four 32-bit word lanes. -/
def vecOfW32 (f : Nat → Nat) : Vec :=
  fun i => f (i.val / 4) / 2 ^ (8 * (3 - i.val % 4)) % 256

/-- Semantics of the `vec_add` built-in on `uint32x4`: lane-wise
addition modulo `2^32`. -/
def vec_add (a b : Vec) : Vec := vecOfW32 (fun i => (w32 a i + w32 b i) % 2 ^ 32)

/-- Semantics of the `vec_addc` built-in: each word lane is the
carry-out of the corresponding lane addition. -/
def vec_addc (a b : Vec) : Vec := vecOfW32 (fun i => (w32 a i + w32 b i) / 2 ^ 32)

/-- The carry mask `{4,5,6,7, 16,16,16,16, 12,13,14,15, 16,16,16,16}`
from `VectorAdd64`. -/
def cmask : Vec :=
  fun i => [4, 5, 6, 7, 16, 16, 16, 16, 12, 13, 14, 15, 16, 16, 16, 16].getD i.val 0

/-- `VectorAdd64(vec1, vec2)` on hardware without a native 64-bit lane
add (the non-`_ARCH_PWR8` branch): a 32-bit lane add-with-carry, a
permutation keeping only the carries out of lanes 1 and 3 shifted into
lanes 0 and 2, then `vec1 + vec2 + carries`. -/
def VectorAdd64 (vec1 vec2 : Vec) : Vec :=
  vec_add (vec_add vec1 vec2) (vec_perm (vec_addc vec1 vec2) zeroV cmask)

/-- The `uint64x2` view of a vector: dword lane `i` is word lanes
`2i` (high) and `2i+1` (low). -/
def u64 (v : Vec) (i : Nat) : Nat := w32 v (2 * i) * 2 ^ 32 + w32 v (2 * i + 1)

/-- Rebuild a vector from two 64-bit dword lanes. -/
def vecOfU64 (f : Nat → Nat) : Vec :=
  fun i => f (i.val / 8) / 2 ^ (8 * (7 - i.val % 8)) % 256

/-- Specification-side definition, from the spec's words: true 2-lane
64-bit modular addition (mod `2^64` per lane). -/
def add64_spec (vec1 vec2 : Vec) : Vec :=
  vecOfU64 (fun i => (u64 vec1 i + u64 vec2 i) % 2 ^ 64)

/-- Concrete operand whose 64-bit lane 0 is `0x00000000FFFFFFFF` and
whose lane 1 is `0x0909090909090909`. -/
def cv1 : Vec :=
  fun i => [0, 0, 0, 0, 255, 255, 255, 255, 9, 9, 9, 9, 9, 9, 9, 9].getD i.val 0

/-- Concrete operand whose 64-bit lane 0 is 1 and whose lane 1 is 0. -/
def cv2 : Vec :=
  fun i => [0, 0, 0, 0, 0, 0, 0, 1, 0, 0, 0, 0, 0, 0, 0, 0].getD i.val 0

/-! ### Comparison -/

/-- Semantics of the `vec_all_eq` predicate built-in on `uint32x4`:
1 when all four word lanes agree, else 0. -/
def vec_all_eq (a b : Vec) : Nat :=
  if ∀ i : Fin 4, w32 a i.val = w32 b i.val then 1 else 0

/-- `VectorEqual(vec1, vec2)`: `1 == vec_all_eq(...)` under the
`uint32x4` reinterpretation. -/
def VectorEqual (vec1 vec2 : Vec) : Bool := 1 == vec_all_eq vec1 vec2

/-- `VectorNotEqual(vec1, vec2)`: `0 == vec_all_eq(...)` under the
`uint32x4` reinterpretation. -/
def VectorNotEqual (vec1 vec2 : Vec) : Bool := 0 == vec_all_eq vec1 vec2

/-! ### Power8 crypto round dispatch

The AES and SHA round built-ins are hardware instructions, not code of
this header; the dispatch functions below therefore take the chosen
built-in as an explicit function argument.  The preprocessor context is
two parameters: `pwr8` for `_ARCH_PWR8` (without it the functions do not
exist and a call cannot be built), and the recognized compiler family.
In the unrecognized-compiler branch the source executes
`CRYPTOPP_ASSERT(0)` and produces no value, modelled as `none`. -/

/-- The compiler families distinguished by `ppc_simd.h`: IBM XL C/C++ or
Clang (`__xlc__`/`__xlC__`/`__clang__`), GNU (`__GNUC__`), or neither. -/
inductive CompilerFamily
  | xlClang
  | gnu
  | other
deriving DecidableEq

/-- `VectorEncrypt(state, key)`: dispatch of one AES encryption round to
`__vcipher` or `__builtin_crypto_vcipher`; assertion failure otherwise. -/
def VectorEncrypt (vcipher : Vec → Vec → Vec) (pwr8 : Bool) (cc : CompilerFamily)
    (state key : Vec) : Option Vec :=
  if pwr8 then
    match cc with
    | .xlClang => some (vcipher state key)
    | .gnu => some (vcipher state key)
    | .other => none
  else none

/-- `VectorEncryptLast(state, key)`: dispatch of the final AES
encryption round. -/
def VectorEncryptLast (vcipherlast : Vec → Vec → Vec) (pwr8 : Bool) (cc : CompilerFamily)
    (state key : Vec) : Option Vec :=
  if pwr8 then
    match cc with
    | .xlClang => some (vcipherlast state key)
    | .gnu => some (vcipherlast state key)
    | .other => none
  else none

/-- `VectorDecrypt(state, key)`: dispatch of one AES decryption round. -/
def VectorDecrypt (vncipher : Vec → Vec → Vec) (pwr8 : Bool) (cc : CompilerFamily)
    (state key : Vec) : Option Vec :=
  if pwr8 then
    match cc with
    | .xlClang => some (vncipher state key)
    | .gnu => some (vncipher state key)
    | .other => none
  else none

/-- `VectorDecryptLast(state, key)`: dispatch of the final AES
decryption round. -/
def VectorDecryptLast (vncipherlast : Vec → Vec → Vec) (pwr8 : Bool) (cc : CompilerFamily)
    (state key : Vec) : Option Vec :=
  if pwr8 then
    match cc with
    | .xlClang => some (vncipherlast state key)
    | .gnu => some (vncipherlast state key)
    | .other => none
  else none

/-- `VectorSHA256<func,subfunc>(vec)`: dispatch of the SHA-256 sigma
instruction `vshasigmaw`. -/
def VectorSHA256 (vshasigmaw : Vec → Nat → Nat → Vec) (pwr8 : Bool) (cc : CompilerFamily)
    (func subfunc : Nat) (vec : Vec) : Option Vec :=
  if pwr8 then
    match cc with
    | .xlClang => some (vshasigmaw vec func subfunc)
    | .gnu => some (vshasigmaw vec func subfunc)
    | .other => none
  else none

/-- `VectorSHA512<func,subfunc>(vec)`: dispatch of the SHA-512 sigma
instruction `vshasigmad`. -/
def VectorSHA512 (vshasigmad : Vec → Nat → Nat → Vec) (pwr8 : Bool) (cc : CompilerFamily)
    (func subfunc : Nat) (vec : Vec) : Option Vec :=
  if pwr8 then
    match cc with
    | .xlClang => some (vshasigmad vec func subfunc)
    | .gnu => some (vshasigmad vec func subfunc)
    | .other => none
  else none

/-! ### Basic lemmas -/

theorem byte_lt {k : Nat} (v : Vec) (h : k < 16) : byte v k = v ⟨k, h⟩ := dif_pos h

theorem Vec.ext_byte {v w : Vec} (h : ∀ k, k < 16 → byte v k = byte w k) : v = w := by
  funext i
  have hi := i.isLt
  have e := h i.val hi
  rwa [byte_lt v hi, byte_lt w hi] at e

theorem byte_zeroV (k : Nat) : byte zeroV k = 0 := by
  unfold byte zeroV
  split <;> rfl

theorem byte_loadWindow {k : Nat} (mem : Mem) (addr : Nat) (h : k < 16) :
    byte (loadWindow mem addr) k = mem (addr + k) := by
  rw [byte_lt _ h]
  rfl

theorem byte_vec_perm {k : Nat} (a b mask : Vec) (h : k < 16) :
    byte (vec_perm a b mask) k =
      if byte mask k % 32 < 16 then byte a (byte mask k % 32)
      else byte b (byte mask k % 32 - 16) := by
  rw [byte_lt _ h]
  rfl

theorem byte_sldWin {k : Nat} (x y : Vec) (c : Nat) (h : k < 16) :
    byte (sldWin x y c) k =
      if c + k < 16 then byte x (c + k) else byte y (c + k - 16) := by
  rw [byte_lt _ h]
  rfl

theorem byte_revMask {k : Nat} (h : k < 16) : byte revMask k = 15 - k := by
  rw [byte_lt _ h]
  rfl

theorem byte_Reverse {k : Nat} (v : Vec) (h : k < 16) :
    byte (Reverse v) k = byte v (15 - k) := by
  rw [Reverse, byte_vec_perm _ _ _ h, byte_revMask h,
    Nat.mod_eq_of_lt (by omega), if_pos (by omega)]

theorem Reverse_Reverse (v : Vec) : Reverse (Reverse v) = v := by
  refine Vec.ext_byte fun k hk => ?_
  rw [byte_Reverse _ hk, byte_Reverse _ (by omega)]
  congr 1
  omega

theorem storeWindow_loadWindow (mem : Mem) (addr a : Nat) :
    storeWindow (loadWindow mem addr) addr mem a = mem a := by
  unfold storeWindow
  split
  · rename_i h
    rw [byte_loadWindow _ _ (by omega)]
    congr 1
    omega
  · rfl

theorem sldWin_self_zero (v : Vec) : sldWin v v 0 = v := by
  refine Vec.ext_byte fun k hk => ?_
  rw [byte_sldWin _ _ _ hk, if_pos (by omega), Nat.zero_add]

/-! ### Claim C8: byte reversal is an involution -/

/-- C8: for all vectors `v`, `ReverseBytes(ReverseBytes(v)) == v` — the
whole-vector byte reversal `Reverse`, a self-permute with the mask
`{15,14,...,0}`, is an involution. -/
theorem C8_Reverse_involution (v : Vec) : Reverse (Reverse v) = v :=
  Reverse_Reverse v

/-! ### Claim C10: NotEqual is the negation of Equal -/

/-- C10: for every pair of vectors, `VectorNotEqual` returns exactly the
boolean negation of `VectorEqual`; both are decided by the same
`vec_all_eq` comparison of all four 32-bit lanes, so exactly one of the
two predicates holds. -/
theorem C10_VectorNotEqual_negation (vec1 vec2 : Vec) :
    VectorNotEqual vec1 vec2 = !VectorEqual vec1 vec2 := by
  by_cases h : ∀ i : Fin 4, w32 vec1 i.val = w32 vec2 i.val <;>
    simp [VectorNotEqual, VectorEqual, vec_all_eq, h]

/-! ### Claim C9: crypto round dispatch has no fallback -/

/-- C9: invoking any of the six crypto round primitives without the
Power8 cryptographic capability, or with no recognized compiler family,
yields no result (the assertion branch): there is no software
fallback. -/
theorem C9_crypto_dispatch_no_fallback
    (vcipher vcipherlast vncipher vncipherlast : Vec → Vec → Vec)
    (vshasigmaw vshasigmad : Vec → Nat → Nat → Vec)
    (pwr8 : Bool) (cc : CompilerFamily) (state key vec : Vec) (func subfunc : Nat)
    (h : pwr8 = false ∨ cc = CompilerFamily.other) :
    VectorEncrypt vcipher pwr8 cc state key = none ∧
    VectorEncryptLast vcipherlast pwr8 cc state key = none ∧
    VectorDecrypt vncipher pwr8 cc state key = none ∧
    VectorDecryptLast vncipherlast pwr8 cc state key = none ∧
    VectorSHA256 vshasigmaw pwr8 cc func subfunc vec = none ∧
    VectorSHA512 vshasigmad pwr8 cc func subfunc vec = none := by
  rcases h with h | h <;> subst h <;>
    simp [VectorEncrypt, VectorEncryptLast, VectorDecrypt, VectorDecryptLast,
      VectorSHA256, VectorSHA512]

theorem C9_witness :
    VectorEncrypt (fun _ _ => zeroV) false CompilerFamily.gnu zeroV zeroV = none ∧
    VectorEncryptLast (fun _ _ => zeroV) false CompilerFamily.gnu zeroV zeroV = none ∧
    VectorDecrypt (fun _ _ => zeroV) false CompilerFamily.gnu zeroV zeroV = none ∧
    VectorDecryptLast (fun _ _ => zeroV) false CompilerFamily.gnu zeroV zeroV = none ∧
    VectorSHA256 (fun _ _ _ => zeroV) false CompilerFamily.gnu 0 0 zeroV = none ∧
    VectorSHA512 (fun _ _ _ => zeroV) false CompilerFamily.gnu 0 0 zeroV = none :=
  C9_crypto_dispatch_no_fallback _ _ _ _ _ _ false CompilerFamily.gnu
    zeroV zeroV zeroV 0 0 (Or.inl rfl)

/-! ### Claim C7: shift by at least 16 gives zero, shift by 0 is a noop -/

/-- C7: for all vectors and both host byte orders, `ShiftLeftOctet<C>`
and `ShiftRightOctet<C>` return the all-zero vector whenever `C >= 16`,
and return the input unchanged when `C == 0`. -/
theorem C7_shift_octet_boundaries (be : Bool) (C : Nat) (v : Vec) :
    (16 ≤ C → VectorShiftLeftOctet be C v = some zeroV ∧
      VectorShiftRightOctet be C v = some zeroV) ∧
    (VectorShiftLeftOctet be 0 v = some v ∧ VectorShiftRightOctet be 0 v = some v) := by
  refine ⟨fun h => ?_, ?_⟩ <;>
    simp [VectorShiftLeftOctet, VectorShiftRightOctet, *]

theorem C7_witness :
    VectorShiftLeftOctet true 255 onesV = some zeroV ∧
    VectorShiftRightOctet false 0 onesV = some onesV :=
  ⟨((C7_shift_octet_boundaries true 255 onesV).1 (by omega)).1,
    (C7_shift_octet_boundaries false 0 onesV).2.2⟩

/-! ### Claim C6: rotate by 0 or 16 -/

/-- C6 (divergence evaluated at the failing input): on a big-endian
host `RotateLeftOctet<0>` and `RotateLeftOctet<16>` are the identity,
but on a little-endian host both instantiations pass `16 - (C & 0xf)`
`= 16` as the `vec_sld` immediate, which is outside the valid range
`0..15`, so no result is produced (the claim asserts the identity on
both byte orders because the amount is always reduced modulo 16). -/
theorem C6_rotate_identity_fails_on_little_endian :
    VectorRotateLeftOctet true 0 onesV = some onesV ∧
    VectorRotateLeftOctet true 16 onesV = some onesV ∧
    VectorRotateLeftOctet false 0 onesV = none ∧
    VectorRotateLeftOctet false 16 onesV = none := by
  refine ⟨?_, ?_, rfl, rfl⟩ <;>
    simp [VectorRotateLeftOctet, vec_sld, sldWin_self_zero]

/-! ### Claim C1: unaligned loads

The zero-offset `VectorLoad_ALTIVEC` is correct for every alignment;
the offset overload is not, because its alignment test looks only at
the pointer, its aligned branch lets `vec_ld` truncate `src + off`, and
its high block is loaded at fixed offset 15 instead of `off + 15`. -/

theorem VectorLoad_ALTIVEC₀_correct (mem : Mem) (src : Nat) :
    VectorLoad_ALTIVEC₀ mem src = loadWindow mem src := by
  unfold VectorLoad_ALTIVEC₀
  by_cases h : src % 16 = 0
  · rw [if_pos h]
    unfold vec_ld
    rw [show src + 0 - (src + 0) % 16 = src from by omega]
  · rw [if_neg h]
    refine Vec.ext_byte fun k hk => ?_
    rw [byte_vec_perm _ _ _ hk, byte_loadWindow _ _ hk,
      show byte (vec_lvsl 0 src) k = src % 16 + k from by rw [byte_lt _ hk]; rfl,
      Nat.mod_eq_of_lt (show src % 16 + k < 32 by omega)]
    split
    · rename_i hlt
      rw [vec_ld, byte_loadWindow _ _ hlt]
      congr 1
      omega
    · rename_i hge
      rw [vec_ld, byte_loadWindow _ _ (show src % 16 + k - 16 < 16 by omega)]
      congr 1
      omega

/-- C1 (divergence evaluated at failing inputs): on the
non-unaligned-capable path, `Load(buffer, offset)` does not return the
16 bytes at `[offset, offset+16)`.  With an aligned pointer and
offset 1 the aligned branch truncates the effective address, so byte 0
of the result is `mem[0]` instead of `mem[1]`; with the unaligned
pointer 1 and offset 16 the high aligned block is loaded at fixed
offset 15, so byte 15 of the result is `mem[16]` instead of `mem[32]`
(memory is initialized with `mem[a] = a`). -/
theorem C1_load_offset_bug :
    (VectorLoad false (fun a => a) 1 0 0 = 0 ∧ loadWindow (fun a => a) (0 + 1) 0 = 1) ∧
    (VectorLoad false (fun a => a) 16 1 15 = 16 ∧
      loadWindow (fun a => a) (1 + 16) 15 = 32) ∧
    VectorLoad false (fun a => a) 1 0 ≠ loadWindow (fun a => a) (0 + 1) := by
  exact ⟨⟨rfl, rfl⟩, ⟨by decide, rfl⟩, fun h => absurd (congrFun h 0) (by decide)⟩

/-! ### Claim C2: unaligned stores -/

/-- The POWER7 unaligned-capable paths implement the specified window
load and window store exactly, for every offset and alignment. -/
theorem VectorLoad_VectorStore_pwr7_exact (data : Vec) (mem : Mem) (off src : Nat) :
    VectorLoad true mem off src = loadWindow mem (src + off) ∧
    VectorStore true data off src mem = storeWindow data (src + off) mem :=
  ⟨rfl, rfl⟩

theorem vec_ste_u8_hit (v : Vec) (off dest : Nat) (m : Mem) (a : Nat)
    (h : a = dest + off) : vec_ste_u8 v off dest m a = byte v (a % 16) := by
  unfold vec_ste_u8
  rw [if_pos h]
  congr 1
  omega

theorem vec_ste_u8_pass (v : Vec) (off dest : Nat) (m : Mem) (a : Nat)
    (h : ¬ a = dest + off) : vec_ste_u8 v off dest m a = m a := by
  unfold vec_ste_u8
  rw [if_neg h]

theorem vec_ste_u16_hit (v : Vec) (off dest : Nat) (m : Mem) (a : Nat)
    (h : dest + off - (dest + off) % 2 ≤ a ∧ a ≤ dest + off - (dest + off) % 2 + 1) :
    vec_ste_u16 v off dest m a = byte v (a % 16) := by
  unfold vec_ste_u16
  by_cases h0 : a = dest + off - (dest + off) % 2
  · rw [if_pos h0]
    congr 1
    omega
  · rw [if_neg h0, if_pos (by omega)]
    congr 1
    omega

theorem vec_ste_u16_pass (v : Vec) (off dest : Nat) (m : Mem) (a : Nat)
    (h : ¬ (dest + off - (dest + off) % 2 ≤ a ∧ a ≤ dest + off - (dest + off) % 2 + 1)) :
    vec_ste_u16 v off dest m a = m a := by
  unfold vec_ste_u16
  rw [if_neg (by omega), if_neg (by omega)]

theorem vec_ste_u32_hit (v : Vec) (off dest : Nat) (m : Mem) (a : Nat)
    (h : dest + off - (dest + off) % 4 ≤ a ∧ a ≤ dest + off - (dest + off) % 4 + 3) :
    vec_ste_u32 v off dest m a = byte v (a % 16) := by
  unfold vec_ste_u32
  by_cases h0 : a = dest + off - (dest + off) % 4
  · rw [if_pos h0]
    congr 1
    omega
  · rw [if_neg h0]
    by_cases h1 : a = dest + off - (dest + off) % 4 + 1
    · rw [if_pos h1]
      congr 1
      omega
    · rw [if_neg h1]
      by_cases h2 : a = dest + off - (dest + off) % 4 + 2
      · rw [if_pos h2]
        congr 1
        omega
      · rw [if_neg h2, if_pos (by omega)]
        congr 1
        omega

theorem vec_ste_u32_pass (v : Vec) (off dest : Nat) (m : Mem) (a : Nat)
    (h : ¬ (dest + off - (dest + off) % 4 ≤ a ∧ a ≤ dest + off - (dest + off) % 4 + 3)) :
    vec_ste_u32 v off dest m a = m a := by
  unfold vec_ste_u32
  rw [if_neg (by omega), if_neg (by omega), if_neg (by omega), if_neg (by omega)]

/-- The permutation `vec_lvsr(0, dest)` rotates the vector so that the
byte stored at any window address `x` — always the vector byte indexed
`x mod 16` — is byte `x - dest` of the original vector. -/
theorem byte_lvsr_perm (data : Vec) (dest : Nat) (x E : Nat)
    (hx1 : dest ≤ x) (hx2 : x < dest + 16) (hE : E = x % 16) :
    byte (vec_perm data data (vec_lvsr 0 dest)) E = byte data (x - dest) := by
  subst hE
  rw [byte_vec_perm data data (vec_lvsr 0 dest) (show x % 16 < 16 by omega),
    show byte (vec_lvsr 0 dest) (x % 16) = 16 - dest % 16 + x % 16 from by
      rw [byte_lt _ (show x % 16 < 16 by omega)]; rfl,
    Nat.mod_eq_of_lt (show 16 - dest % 16 + x % 16 < 32 by omega)]
  by_cases hc : 16 - dest % 16 + x % 16 < 16
  · rw [if_pos hc]
    congr 1
    omega
  · rw [if_neg hc]
    congr 1
    omega

/-- The zero-offset `VectorStore_ALTIVEC` is correct for every
alignment: the permuted 1+2+4+4+4+4+2+1 `vec_ste` sub-store sequence
writes exactly the 16 vector bytes to `[dest, dest+16)` and leaves all
other memory unchanged. -/
theorem VectorStore_ALTIVEC₀_correct (data : Vec) (dest : Nat) (mem : Mem) (a : Nat) :
    VectorStore_ALTIVEC₀ data dest mem a = storeWindow data dest mem a := by
  unfold VectorStore_ALTIVEC₀
  by_cases h : dest % 16 = 0
  · rw [if_pos h]
    unfold vec_st
    rw [show dest + 0 - (dest + 0) % 16 = dest from by omega]
  · rw [if_neg h]
    unfold storeWindow
    by_cases hin : dest ≤ a ∧ a < dest + 16
    · rw [if_pos hin]
      by_cases c15 : a = dest + 15
      · rw [vec_ste_u8_hit _ _ _ _ _ c15]
        exact byte_lvsr_perm data dest a _ hin.1 hin.2 rfl
      · rw [vec_ste_u8_pass _ _ _ _ _ c15]
        by_cases c14 : dest + 14 - (dest + 14) % 2 ≤ a ∧
            a ≤ dest + 14 - (dest + 14) % 2 + 1
        · rw [vec_ste_u16_hit _ _ _ _ _ c14]
          exact byte_lvsr_perm data dest a _ hin.1 hin.2 rfl
        · rw [vec_ste_u16_pass _ _ _ _ _ c14]
          by_cases c12 : dest + 12 - (dest + 12) % 4 ≤ a ∧
              a ≤ dest + 12 - (dest + 12) % 4 + 3
          · rw [vec_ste_u32_hit _ _ _ _ _ c12]
            exact byte_lvsr_perm data dest a _ hin.1 hin.2 rfl
          · rw [vec_ste_u32_pass _ _ _ _ _ c12]
            by_cases c8 : dest + 8 - (dest + 8) % 4 ≤ a ∧
                a ≤ dest + 8 - (dest + 8) % 4 + 3
            · rw [vec_ste_u32_hit _ _ _ _ _ c8]
              exact byte_lvsr_perm data dest a _ hin.1 hin.2 rfl
            · rw [vec_ste_u32_pass _ _ _ _ _ c8]
              by_cases c4 : dest + 4 - (dest + 4) % 4 ≤ a ∧
                  a ≤ dest + 4 - (dest + 4) % 4 + 3
              · rw [vec_ste_u32_hit _ _ _ _ _ c4]
                exact byte_lvsr_perm data dest a _ hin.1 hin.2 rfl
              · rw [vec_ste_u32_pass _ _ _ _ _ c4]
                by_cases c3 : dest + 3 - (dest + 3) % 4 ≤ a ∧
                    a ≤ dest + 3 - (dest + 3) % 4 + 3
                · rw [vec_ste_u32_hit _ _ _ _ _ c3]
                  exact byte_lvsr_perm data dest a _ hin.1 hin.2 rfl
                · rw [vec_ste_u32_pass _ _ _ _ _ c3]
                  by_cases c1 : dest + 1 - (dest + 1) % 2 ≤ a ∧
                      a ≤ dest + 1 - (dest + 1) % 2 + 1
                  · rw [vec_ste_u16_hit _ _ _ _ _ c1]
                    exact byte_lvsr_perm data dest a _ hin.1 hin.2 rfl
                  · rw [vec_ste_u16_pass _ _ _ _ _ c1]
                    by_cases c0 : a = dest + 0
                    · rw [vec_ste_u8_hit _ _ _ _ _ c0]
                      exact byte_lvsr_perm data dest a _ hin.1 hin.2 rfl
                    · omega
    · rw [if_neg hin]
      rw [vec_ste_u8_pass _ _ _ _ _ (by omega),
        vec_ste_u16_pass _ _ _ _ _ (by omega),
        vec_ste_u32_pass _ _ _ _ _ (by omega),
        vec_ste_u32_pass _ _ _ _ _ (by omega),
        vec_ste_u32_pass _ _ _ _ _ (by omega),
        vec_ste_u32_pass _ _ _ _ _ (by omega),
        vec_ste_u16_pass _ _ _ _ _ (by omega),
        vec_ste_u8_pass _ _ _ _ _ (by omega)]

/-! ### Claim C3: big-endian store after big-endian load round-trips -/

/-- C3: for every byte buffer, on both host byte orders and with or
without the POWER7 unaligned-access extension,
`StoreBigEndian(LoadBigEndian(buf))` writes back exactly the original
bytes — every memory location, inside and outside the 16-byte window,
is left with its original value.  On a little-endian host each
operation performs a whole-vector byte reversal, and the two reversals
cancel. -/
theorem C3_StoreBE_LoadBE_roundtrip (pwr7 be : Bool) (mem : Mem) (src a : Nat) :
    VectorStoreBE pwr7 be (VectorLoadBE pwr7 be mem src) src mem a = mem a := by
  cases pwr7 <;> cases be
  · show VectorStore_ALTIVEC₀ (Reverse (Reverse (VectorLoad_ALTIVEC₀ mem src))) src mem a
      = mem a
    rw [Reverse_Reverse, VectorStore_ALTIVEC₀_correct, VectorLoad_ALTIVEC₀_correct]
    exact storeWindow_loadWindow mem src a
  · show VectorStore_ALTIVEC₀ (VectorLoad_ALTIVEC₀ mem src) src mem a = mem a
    rw [VectorStore_ALTIVEC₀_correct, VectorLoad_ALTIVEC₀_correct]
    exact storeWindow_loadWindow mem src a
  · show vec_vsx_st (Reverse (Reverse (vec_vsx_ld mem 0 src))) 0 src mem a = mem a
    rw [Reverse_Reverse]
    exact storeWindow_loadWindow mem (src + 0) a
  · show vec_vsx_st (vec_vsx_ld mem 0 src) 0 src mem a = mem a
    exact storeWindow_loadWindow mem (src + 0) a

/-- C2 (divergence evaluated at a failing input): on the
non-unaligned-capable path, `Store(vector, buffer, offset)` with an
aligned pointer and offset 1 lets `vec_st` truncate the effective
address: it writes the vector to `[0, 16)` instead of `[1, 17)`.  So
address 0 — outside the requested window — is clobbered with byte 0 of
the vector, while address 16 keeps its old value instead of receiving
byte 15 of the vector (`storeWindow` is the store effect the claim
specifies; memory is initialized to 0 and the stored vector is
all-ones). -/
theorem C2_store_offset_bug :
    VectorStore false onesV 1 0 (fun _ => 0) 0 = 1 ∧
    VectorStore false onesV 1 0 (fun _ => 0) 16 = 0 ∧
    storeWindow onesV (0 + 1) (fun _ => 0) 0 = 0 ∧
    storeWindow onesV (0 + 1) (fun _ => 0) 16 = 1 ∧
    VectorStore false onesV 1 0 (fun _ => 0) ≠ storeWindow onesV (0 + 1) (fun _ => 0) := by
  exact ⟨by decide, by decide, by decide, by decide,
    fun h => absurd (congrFun h 0) (by decide)⟩

/-! ### Claim C5: shift right then shift left -/

/-- C5 counterexample: at `C = 0` and the all-ones vector, the claim
predicts `v` with its low `16 - C = 16` bytes zeroed — the zero vector —
but `ShiftLeftOctet<0>(ShiftRightOctet<0>(v))` is `v` itself. -/
theorem C5_counterexample :
    ¬ ((VectorShiftRightOctet true 0 onesV).bind (VectorShiftLeftOctet true 0)
        = some zeroV) := by
  intro h
  exact absurd (congrFun (Option.some.inj h) 0) (by decide)

/-- C5 as amended: for all vectors, both host byte orders and
`C in [0,15]`, `ShiftLeftOctet<C>(ShiftRightOctet<C>(v))` reproduces `v`
with its low `C` bytes zeroed (bytes `16-C .. 15` in big-endian byte
numbering) and the remaining `16 - C` bytes preserved. -/
theorem C5_shift_right_then_left (be : Bool) (C : Nat) (v : Vec) (hC : C < 16) :
    (VectorShiftRightOctet be C v).bind (VectorShiftLeftOctet be C)
      = some (fun i => if i.val < 16 - C then v i else 0) := by
  by_cases h0 : C = 0
  · subst h0
    show some v = _
    refine congrArg some (Vec.ext_byte fun k hk => ?_)
    rw [show byte (fun i : Fin 16 => if i.val < 16 - 0 then v i else 0) k
          = byte v k from by
        rw [byte_lt _ hk, byte_lt _ hk]
        show (if k < 16 - 0 then v ⟨k, hk⟩ else 0) = v ⟨k, hk⟩
        rw [if_pos (by omega)]]
  · have h1 : ¬ 16 ≤ C := by omega
    have hR : VectorShiftRightOctet be C v = some (sldWin zeroV v (16 - C)) := by
      cases be <;>
        simp [VectorShiftRightOctet, vec_sld, vec_sld_le, h0, h1, hC,
          show 16 - C < 16 by omega]
    have hL : VectorShiftLeftOctet be C (sldWin zeroV v (16 - C))
        = some (sldWin (sldWin zeroV v (16 - C)) zeroV C) := by
      cases be <;>
        simp [VectorShiftLeftOctet, vec_sld, vec_sld_le, h0, h1, hC,
          show 16 - C < 16 by omega, show 16 - (16 - C) = C by omega]
    have key : sldWin (sldWin zeroV v (16 - C)) zeroV C
        = fun i => if i.val < 16 - C then v i else 0 := by
      refine Vec.ext_byte fun k hk => ?_
      have hrhs : byte (fun i : Fin 16 => if i.val < 16 - C then v i else 0) k
          = if k < 16 - C then byte v k else 0 := by
        rw [byte_lt _ hk]
        show (if k < 16 - C then v ⟨k, hk⟩ else 0) = if k < 16 - C then byte v k else 0
        rw [byte_lt _ hk]
      rw [hrhs, byte_sldWin _ _ _ hk]
      by_cases hc : C + k < 16
      · rw [if_pos hc, byte_sldWin _ _ _ hc, if_neg (by omega),
          show 16 - C + (C + k) - 16 = k from by omega, if_pos (by omega)]
      · rw [if_neg hc, byte_zeroV, if_neg (by omega)]
    rw [hR]
    show VectorShiftLeftOctet be C (sldWin zeroV v (16 - C)) = _
    rw [hL, key]

theorem C5_witness :
    (VectorShiftRightOctet true 3 onesV).bind (VectorShiftLeftOctet true 3)
      = some (fun i => if i.val < 16 - 3 then onesV i else 0) :=
  C5_shift_right_then_left true 3 onesV (by decide)

/-! ### Claim C4: the emulated 64-bit lane add -/

theorem byte_vecOfW32 (f : Nat → Nat) (k : Nat) (h : k < 16) :
    byte (vecOfW32 f) k = f (k / 4) / 2 ^ (8 * (3 - k % 4)) % 256 := by
  rw [byte_lt _ h]
  rfl

theorem byte_vecOfU64 (g : Nat → Nat) (k : Nat) (h : k < 16) :
    byte (vecOfU64 g) k = g (k / 8) / 2 ^ (8 * (7 - k % 8)) % 256 := by
  rw [byte_lt _ h]
  rfl

theorem w32_vecOfW32 (f : Nat → Nat) {i : Nat} (h : i < 4) :
    w32 (vecOfW32 f) i = f i % 2 ^ 32 := by
  unfold w32
  rw [byte_vecOfW32 f (4 * i) (by omega), byte_vecOfW32 f (4 * i + 1) (by omega),
    byte_vecOfW32 f (4 * i + 2) (by omega), byte_vecOfW32 f (4 * i + 3) (by omega),
    show 4 * i / 4 = i from by omega, show (4 * i + 1) / 4 = i from by omega,
    show (4 * i + 2) / 4 = i from by omega, show (4 * i + 3) / 4 = i from by omega,
    show 4 * i % 4 = 0 from by omega, show (4 * i + 1) % 4 = 1 from by omega,
    show (4 * i + 2) % 4 = 2 from by omega, show (4 * i + 3) % 4 = 3 from by omega]
  norm_num
  omega

/-- The carry mask keeps the carries out of word lanes 1 and 3 and moves
them into word lanes 0 and 2; lanes 1 and 3 of the permuted vector come
from the zero vector. -/
theorem w32_carry_perm (cy : Vec) :
    w32 (vec_perm cy zeroV cmask) 0 = w32 cy 1 ∧
    w32 (vec_perm cy zeroV cmask) 1 = 0 ∧
    w32 (vec_perm cy zeroV cmask) 2 = w32 cy 3 ∧
    w32 (vec_perm cy zeroV cmask) 3 = 0 := by
  refine ⟨?_, ?_, ?_, ?_⟩
  · unfold w32
    norm_num
    rfl
  · unfold w32
    norm_num
    exact ⟨⟨⟨rfl, rfl⟩, rfl⟩, rfl⟩
  · unfold w32
    norm_num
    rfl
  · unfold w32
    norm_num
    exact ⟨⟨⟨rfl, rfl⟩, rfl⟩, rfl⟩

theorem byte_bound {v : Vec} (h : ∀ j (hj : j < 16), v ⟨j, hj⟩ < 256) (k : Nat) :
    byte v k < 256 := by
  unfold byte
  split
  · exact h _ ‹_›
  · omega

theorem w32_bound {v : Vec} (h : ∀ j (hj : j < 16), v ⟨j, hj⟩ < 256) (i : Nat) :
    w32 v i < 2 ^ 32 := by
  unfold w32
  have b0 := byte_bound h (4 * i)
  have b1 := byte_bound h (4 * i + 1)
  have b2 := byte_bound h (4 * i + 2)
  have b3 := byte_bound h (4 * i + 3)
  omega

/-- Two vectors rebuilt from word lanes and from dword lanes agree when
each word lane matches the corresponding half of its dword lane. -/
theorem vecOfW32_eq_vecOfU64 (f g : Nat → Nat)
    (h : ∀ j, j < 4 → f j % 2 ^ 32 = g (j / 2) / 2 ^ (32 * (1 - j % 2)) % 2 ^ 32) :
    vecOfW32 f = vecOfU64 g := by
  have h0 := h 0 (by omega)
  have h1 := h 1 (by omega)
  have h2 := h 2 (by omega)
  have h3 := h 3 (by omega)
  norm_num at h0 h1 h2 h3
  refine Vec.ext_byte fun k hk => ?_
  rw [byte_vecOfW32 f k hk, byte_vecOfU64 g k hk]
  interval_cases k <;> norm_num <;> omega

/-- C4: on hardware without a native 64-bit lane add, `VectorAdd64` —
the 32-bit add-with-carry, carry-selecting permutation, and final
three-operand sum — equals true 2-lane 64-bit modular addition
bit-for-bit, for any vectors whose entries are bytes. -/
theorem C4_VectorAdd64_is_true_add64 (vec1 vec2 : Vec)
    (h1 : ∀ j (hj : j < 16), vec1 ⟨j, hj⟩ < 256)
    (h2 : ∀ j (hj : j < 16), vec2 ⟨j, hj⟩ < 256) :
    VectorAdd64 vec1 vec2 = add64_spec vec1 vec2 := by
  have hA : ∀ i, i < 4 → w32 (vec_add vec1 vec2) i
      = (w32 vec1 i + w32 vec2 i) % 2 ^ 32 % 2 ^ 32 := fun i hi => w32_vecOfW32 _ hi
  have hC : ∀ i, i < 4 → w32 (vec_addc vec1 vec2) i
      = (w32 vec1 i + w32 vec2 i) / 2 ^ 32 % 2 ^ 32 := fun i hi => w32_vecOfW32 _ hi
  have hb10 := w32_bound h1 0
  have hb11 := w32_bound h1 1
  have hb12 := w32_bound h1 2
  have hb13 := w32_bound h1 3
  have hb20 := w32_bound h2 0
  have hb21 := w32_bound h2 1
  have hb22 := w32_bound h2 2
  have hb23 := w32_bound h2 3
  show vecOfW32 (fun i => (w32 (vec_add vec1 vec2) i
      + w32 (vec_perm (vec_addc vec1 vec2) zeroV cmask) i) % 2 ^ 32)
    = vecOfU64 (fun i => (u64 vec1 i + u64 vec2 i) % 2 ^ 64)
  refine vecOfW32_eq_vecOfU64 _ _ fun j hj => ?_
  have hY := w32_carry_perm (vec_addc vec1 vec2)
  interval_cases j
  · norm_num
    rw [hA 0 (by omega), hY.1, hC 1 (by omega),
      show u64 vec1 0 = w32 vec1 0 * 2 ^ 32 + w32 vec1 1 from rfl,
      show u64 vec2 0 = w32 vec2 0 * 2 ^ 32 + w32 vec2 1 from rfl]
    omega
  · norm_num
    rw [hA 1 (by omega), hY.2.1,
      show u64 vec1 0 = w32 vec1 0 * 2 ^ 32 + w32 vec1 1 from rfl,
      show u64 vec2 0 = w32 vec2 0 * 2 ^ 32 + w32 vec2 1 from rfl]
    omega
  · norm_num
    rw [hA 2 (by omega), hY.2.2.1, hC 3 (by omega),
      show u64 vec1 1 = w32 vec1 2 * 2 ^ 32 + w32 vec1 3 from rfl,
      show u64 vec2 1 = w32 vec2 2 * 2 ^ 32 + w32 vec2 3 from rfl]
    omega
  · norm_num
    rw [hA 3 (by omega), hY.2.2.2,
      show u64 vec1 1 = w32 vec1 2 * 2 ^ 32 + w32 vec1 3 from rfl,
      show u64 vec2 1 = w32 vec2 2 * 2 ^ 32 + w32 vec2 3 from rfl]
    omega

theorem C4_witness : VectorAdd64 cv1 cv2 = add64_spec cv1 cv2 :=
  C4_VectorAdd64_is_true_add64 cv1 cv2 (by decide) (by decide)

/-- Evaluating the claim's example: adding 1 to a 64-bit lane holding
`0x00000000FFFFFFFF` carries into the high 32 bits, producing
`0x0000000100000000`, and leaves the adjacent 64-bit lane unaltered. -/
theorem VectorAdd64_carry_example :
    u64 (VectorAdd64 cv1 cv2) 0 = 4294967296 ∧
    u64 (VectorAdd64 cv1 cv2) 1 = u64 cv1 1 := by
  constructor <;> decide
